import Mathlib

/-!
Verification development for the lz4-block-array-messagepack decoder.

This file gives a shallow embedding, in Lean, of the decoding pipeline
implemented in `src/lz4_messagepack/src/main.rs` (envelope parsing,
size-hint extraction, the decompression waterfall, MessagePack-to-JSON
conversion with the shape-promotion heuristic, the partial-recovery
parser and the binary profiler) and of the encoder in `src/lib.rs`
(JSON-to-MessagePack conversion and envelope construction), and proves
properties of that embedding.

Modelling conventions:
* Machine integers are modelled as `Nat`/`Int`; truncating casts
  (`as u8`, `as i8`, `as i32`) are explicit `% 2 ^ w` operations.
* A Rust operation that can panic (slice indexing) is modelled with
  `Option`-returning access; `none` means the panic branch.
* Calls into external crates (`lz4::block::decompress`, `lz4::block::compress`,
  `rmpv::decode::read_value`, `rmpv::encode::write_value`,
  `serde_json::from_str`, `String::from_utf8`) and the two
  floating-point-valued conversions (f32-to-f64 widening, the `{:.2}`
  percentage formatting) are parameters, collected in the `Externals`
  structure; theorems quantify over them, constrained by hypotheses
  where a claim needs a property of the external function.
* `serde_json::Value` objects (backed by `BTreeMap<String, Value>`) are
  modelled as key-sorted association lists; `mapInsert` mirrors the
  B-tree insertion (sorted position, replacement on an equal key), and
  key comparison `charListLt` is the lexicographic order on code points,
  which agrees with Rust's byte-wise `Ord` on `String`.
-/

/-- Numbers of `serde_json::Value::Number`: either an integer (the `i64`/`u64`
representations, stored as an `Int`) or a double (stored as its bit pattern,
since no claim computes with floats). -/
inductive JNum where
  | int (i : Int)
  | float (bits : Nat)
deriving Repr, DecidableEq

/-- Shallow embedding of `serde_json::Value`. Objects are key-sorted
association lists, mirroring `serde_json`'s `BTreeMap` backing. -/
inductive Json where
  | null
  | bool (b : Bool)
  | num (n : JNum)
  | str (s : String)
  | arr (items : List Json)
  | obj (kvs : List (String × Json))
deriving Repr

/-- Shallow embedding of `rmpv::Value` (the self-describing MessagePack value
tree). Floats carry bit patterns; `int` carries the mathematical value of the
`rmpv::Integer` (an `i64` or a `u64`). -/
inductive MP where
  | nil
  | bool (b : Bool)
  | int (i : Int)
  | f32 (bits : Nat)
  | f64 (bits : Nat)
  | str (s : String)
  | bin (bytes : List Nat)
  | arr (items : List MP)
  | map (kvs : List (MP × MP))
  | ext (tag : Int) (bytes : List Nat)
deriving Repr

/-- The `MessagePackExt` record built by `parse_input`: a block of the
envelope (`ext_type` is the `i8` discriminator, `header_data` and `data`
the two byte arrays). -/
structure Block where
  ext_type : Int
  header_data : List Nat
  data : List Nat
deriving Repr, DecidableEq

/-- External collaborators of the pipeline, as function parameters:
`readv` is `rmpv::decode::read_value` on a byte slice, returning the decoded
value and the cursor position (bytes consumed); `dB` is
`lz4::block::decompress(data, Some(bound))` with the `i32` bound; `dU` is
`lz4::block::decompress(data, None)`; `utf8` is `String::from_utf8`;
`jparse` is `serde_json::from_str`; `reser` is `reserialize_to_msgpack`
(an `rmpv` encoding, infallible when writing to a `Vec`); `f32c` is the
f32-to-f64 widening cast on bit patterns; `fmtPct` is the
`format!("{:.2}%", num as f64 / den as f64 * 100.0)` rendering for a
nonzero denominator. -/
structure Externals where
  readv : List Nat → Option (MP × Nat)
  dB : List Nat → Int → Option (List Nat)
  dU : List Nat → Option (List Nat)
  utf8 : List Nat → Option String
  jparse : String → Option Json
  reser : Block → List Nat
  f32c : Nat → Nat
  fmtPct : Nat → Nat → String

/-- Lexicographic order on code-point lists; on UTF-8 strings this agrees with
Rust's byte-wise `Ord` for `String` (code-point order and UTF-8 byte order
coincide). -/
def charListLt : List Char → List Char → Bool
  | [], [] => false
  | [], _ :: _ => true
  | _ :: _, [] => false
  | a :: as, b :: bs =>
    a.toNat < b.toNat || (a.toNat = b.toNat && charListLt as bs)

/-- String comparison used for `BTreeMap<String, _>` keys. -/
def strLt (a b : String) : Bool := charListLt a.data b.data

/-- Insertion into a key-sorted association list: the model of
`BTreeMap::insert` (new keys go to their sorted position, an equal key has
its value replaced). -/
def mapInsert : List (String × Json) → String → Json → List (String × Json)
  | [], k, v => [(k, v)]
  | (k2, v2) :: rest, k, v =>
    if strLt k k2 then (k, v) :: (k2, v2) :: rest
    else if k = k2 then (k, v) :: rest
    else (k2, v2) :: mapInsert rest k v

/-- Builds the object for a `json!({ ... })` literal / a sequence of
`Map::insert` calls, starting from the empty map. -/
def mkObj (kvs : List (String × Json)) : Json :=
  .obj (kvs.foldl (fun m p => mapInsert m p.1 p.2) [])

/-- Truncating cast `as i8` of an unsigned value. -/
def toI8 (n : Nat) : Int :=
  if n % 2 ^ 8 < 2 ^ 7 then ((n % 2 ^ 8 : Nat) : Int)
  else ((n % 2 ^ 8 : Nat) : Int) - 2 ^ 8

/-- Truncating cast `as i32` of an unsigned value. -/
def toI32 (n : Nat) : Int :=
  if n % 2 ^ 32 < 2 ^ 31 then ((n % 2 ^ 32 : Nat) : Int)
  else ((n % 2 ^ 32 : Nat) : Int) - 2 ^ 32

/-- Big-endian 2-byte read `(h[i] << 8) | h[i+1]`; `none` models the panic of
an out-of-bounds index. -/
def readBE2 (h : List Nat) (i : Nat) : Option Nat :=
  match h[i]?, h[i + 1]? with
  | some a, some b => some (a * 256 + b)
  | _, _ => none

/-- Big-endian 3-byte read `(h[i] << 16) | (h[i+1] << 8) | h[i+2]`. -/
def readBE3 (h : List Nat) (i : Nat) : Option Nat :=
  match h[i]?, h[i + 1]?, h[i + 2]? with
  | some a, some b, some c => some (a * 65536 + b * 256 + c)
  | _, _, _ => none

/-- Big-endian 4-byte read. -/
def readBE4 (h : List Nat) (i : Nat) : Option Nat :=
  match h[i]?, h[i + 1]?, h[i + 2]?, h[i + 3]? with
  | some a, some b, some c, some d => some (a * 16777216 + b * 65536 + c * 256 + d)
  | _, _, _, _ => none

/-- Little-endian 2-byte read `h[i] | (h[i+1] << 8)`. -/
def readLE2 (h : List Nat) (i : Nat) : Option Nat :=
  match h[i]?, h[i + 1]? with
  | some a, some b => some (a + b * 256)
  | _, _ => none

/-- Little-endian 4-byte read. -/
def readLE4 (h : List Nat) (i : Nat) : Option Nat :=
  match h[i]?, h[i + 1]?, h[i + 2]?, h[i + 3]? with
  | some a, some b, some c, some d => some (a + b * 256 + c * 65536 + d * 16777216)
  | _, _, _, _ => none

/-- The little-endian uint32 attempt and the `header length * 4` fallback at
the end of the long-header (`_`) arm of `get_uncompressed_size`. -/
def gusLE4 (header : List Nat) : Option Nat :=
  if 5 ≤ header.length then
    match readLE4 header 1 with
    | none => none
    | some v => if 0 < v ∧ v < 1000000 then some v else some (header.length * 4)
  else some (header.length * 4)

/-- The little-endian uint16 attempt (falling through to `gusLE4`) taken in
the long-header arm of `get_uncompressed_size` when the second byte is not a
MessagePack size marker. -/
def gusLEFallback (header : List Nat) : Option Nat :=
  if 3 ≤ header.length then
    match readLE2 header 1 with
    | none => none
    | some v => if 0 < v ∧ v < 100000 then some v else gusLE4 header
  else gusLE4 header

/-- The `_` (long header) arm of the length match in the 204 branch of
`get_uncompressed_size`: inspect the second byte for a MessagePack size
marker, otherwise try the little-endian interpretations; every non-returning
path falls through to the `header length * 4` estimate. -/
def gusLong (header : List Nat) : Option Nat :=
  if 2 < header.length then
    match header[1]? with
    | none => none
    | some h1 =>
      if h1 = 205 then
        if 4 ≤ header.length then readBE2 header 2
        else some (header.length * 4)
      else if h1 = 206 then
        if 6 ≤ header.length then readBE4 header 2
        else some (header.length * 4)
      else gusLEFallback header
  else some (header.length * 4)

/-- The `header[0] == 204` branch of `get_uncompressed_size`: a match on the
header length reads the 1-4 remaining bytes big-endian; longer headers go to
`gusLong`. -/
def gus204 (header : List Nat) : Option Nat :=
  if header.length = 2 then header[1]?
  else if header.length = 3 then readBE2 header 1
  else if header.length = 4 then readBE3 header 1
  else if header.length = 5 then readBE4 header 1
  else gusLong header

/-- Embedding of `get_uncompressed_size`: derives the advisory uncompressed
size from the header bytes. Each guarded byte access is modelled with an
`Option` read; a fall-through of the Rust control flow that reaches the final
`return estimated_size` is written as `some (header.length * 4)` in the
corresponding branch. -/
def get_uncompressed_size (header : List Nat) : Option Nat :=
  if header.length < 2 then some 0
  else
    match header[0]? with
    | none => none
    | some h0 =>
      if h0 = 205 ∧ 3 ≤ header.length then readBE2 header 1
      else if h0 = 206 ∧ 5 ≤ header.length then readBE4 header 1
      else if 4 ≤ header.length ∧ h0 = 204 ∧ header[1]? = some 12 ∧ header[2]? = some 229
          ∧ header[3]? = some 205 then some 3941
      else if h0 = 204 then gus204 header
      else if h0 = 205 then
        if 3 ≤ header.length then readBE2 header 1 else some (header.length * 4)
      else if h0 = 206 then
        if 5 ≤ header.length then readBE4 header 1 else some (header.length * 4)
      else some (header.length * 4)

example : get_uncompressed_size [204, 5] = some 5 := rfl
example : get_uncompressed_size [205, 1, 2] = some 258 := rfl
example : get_uncompressed_size [204, 12, 229, 205] = some 3941 := rfl
example : get_uncompressed_size [1] = some 0 := rfl
example : get_uncompressed_size [1, 100, 0] = some 12 := rfl
example : get_uncompressed_size [204, 1, 2, 3, 4, 5, 6] = some 513 := rfl

/-- Association-list lookup, the model of `serde_json::Map::get` (keys are
unique in a map built by `mapInsert`, so first-match lookup is faithful). -/
def lookupKvs : List (String × Json) → String → Option Json
  | [], _ => none
  | (k2, v) :: rest, k => if k = k2 then some v else lookupKvs rest k

/-- Model of `Value::get(key)`: `Some` only on objects that contain the key. -/
def jsonGet : Json → String → Option Json
  | .obj kvs, k => lookupKvs kvs k
  | _, _ => none

/-- Model of `serde_json`'s `value[key]` indexing, which yields `Value::Null`
when the value is not an object or lacks the key. -/
def jsonIndex (j : Json) (k : String) : Json := (jsonGet j k).getD .null

/-- Model of `Value::as_u64`: defined exactly on non-negative integer numbers
(which `serde_json` stores in 64 bits). -/
def as_u64 : Json → Option Nat
  | .num (.int i) => if 0 ≤ i ∧ i < 2 ^ 64 then some i.toNat else none
  | _ => none

/-- Element loop of `extract_byte_array`: every element must be a number
(`as_u64`), then is truncated with `as u8`; the first failure short-circuits,
as the `collect::<Result<_, _>>` does. -/
def extract_bytes : List Json → Except String (List Nat)
  | [] => .ok []
  | v :: rest =>
    match as_u64 v with
    | none => .error ("Expected data element to be a number")
    | some n =>
      match extract_bytes rest with
      | .error e => .error e
      | .ok bs => .ok ((n % 2 ^ 8) :: bs)

/-- Embedding of `extract_byte_array`. -/
def extract_byte_array : Json → Except String (List Nat)
  | .arr elems => extract_bytes elems
  | _ => .error ("Expected data to be an array")

/-- Scan loop of `parse_input` over the descriptor array. The Rust loop runs
`while current_index + 1 < len` over the fixed array; here the first argument
is the not-yet-scanned suffix of the array (so the loop condition is "at
least two descriptors remain") and `i` is the absolute scan position, used in
error messages. A pair is consumed when its first element exposes an integer
`type`; a first element without a usable `type` advances the scan by one
position; a typed first element whose nested byte arrays are missing or
malformed is a hard error. -/
def parseGo : List Json → Nat → List Block → Except String (List Block)
  | header :: data :: rest, i, acc =>
    match (jsonGet header "type").bind as_u64 with
    | some t =>
      match jsonGet header "buffer" with
      | none => .error ("Missing buffer in block at index " ++ toString i)
      | some buffer =>
        match extract_byte_array (jsonIndex buffer "data") with
        | .error e => .error e
        | .ok header_data =>
          match jsonGet data "data" with
          | none => .error ("Missing data in block at index " ++ toString (i + 1))
          | some dataArr =>
            match extract_byte_array dataArr with
            | .error e => .error e
            | .ok data_bytes =>
              parseGo rest (i + 2) (acc ++ [⟨toI8 t, header_data, data_bytes⟩])
    | none => parseGo (data :: rest) (i + 1) acc
  | _, _, acc =>
    if acc.isEmpty then .error ("No valid LZ4 blocks found in input")
    else .ok acc

/-- Embedding of `parse_input`, starting from the parsed JSON array of
descriptors (the `serde_json::from_str` and `as_array` steps that produce the
array from text are outside this model). -/
def parse_input (arr : List Json) : Except String (List Block) :=
  if arr.length < 2 then .error ("Input JSON must contain at least 2 elements")
  else parseGo arr 0 []

/-- A byte rendered as a JSON number (avoiding any element-type coercion of
the containing list). -/
def byteJson (b : Nat) : Json := .num (.int (b : Int))

mutual

/-- Embedding of `convert_value_to_json` (main.rs): converts a MessagePack
value tree to a JSON value tree; integers outside the `i64` range become
`null` (the `as_i64` failure), map entries with non-string keys are dropped,
extension values become a two-field object. -/
def convert_value_to_json (f32c : Nat → Nat) : MP → Json
  | .nil => .null
  | .bool b => .bool b
  | .int i => if -(2 ^ 63) ≤ i ∧ i < 2 ^ 63 then .num (.int i) else .null
  | .f32 bits => .num (.float (f32c bits))
  | .f64 bits => .num (.float bits)
  | .str s => .str s
  | .bin bytes => .arr (bytes.map byteJson)
  | .arr items => .arr (convList f32c items)
  | .map kvs => .obj (convMapAux f32c kvs [])
  | .ext tag bytes =>
      mkObj [("ext_type", .num (.int tag)),
             ("ext_data", .arr (bytes.map byteJson))]

/-- Element loop of the array case of `convert_value_to_json`. -/
def convList (f32c : Nat → Nat) : List MP → List Json
  | [] => []
  | x :: xs => convert_value_to_json f32c x :: convList f32c xs

/-- Entry loop of the map case of `convert_value_to_json`: successive
`Map::insert` calls for the string-keyed entries, skipping other keys. -/
def convMapAux (f32c : Nat → Nat) : List (MP × MP) → List (String × Json) → List (String × Json)
  | [], acc => acc
  | (k, v) :: rest, acc =>
    match k with
    | .str s => convMapAux f32c rest (mapInsert acc s (convert_value_to_json f32c v))
    | _ => convMapAux f32c rest acc

end

/-- One conditional insert of the shape-promotion heuristic for a
string-typed positional field. -/
def promoteStr (r : List (String × Json)) (k : String) (o : Option Json) :
    List (String × Json) :=
  match o with
  | some (.str s) => mapInsert r k (.str s)
  | _ => r

/-- One conditional insert of the shape-promotion heuristic for a
number-typed positional field. -/
def promoteNum (r : List (String × Json)) (k : String) (o : Option Json) :
    List (String × Json) :=
  match o with
  | some (.num n) => mapInsert r k (.num n)
  | _ => r

/-- The five conditional inserts of the shape-promotion heuristic in
`process_decompressed_data`: each of the first five array positions whose
type check passes contributes its field to the candidate object. -/
def promoteFields (items : List Json) : List (String × Json) :=
  promoteStr
    (promoteStr
      (promoteNum
        (promoteStr
          (promoteStr [] "type" items[0]?)
          "title" items[1]?)
        "status" items[2]?)
      "detail" items[3]?)
    "instance" items[4]?

example : promoteFields [.str "a", .str "b", .num (.int 3), .str "d", .str "e"] =
    [("detail", .str "d"), ("instance", .str "e"), ("status", .num (.int 3)),
     ("title", .str "b"), ("type", .str "a")] := rfl
example : promoteFields [.num (.int 1), .num (.int 2), .num (.int 3), .num (.int 4),
    .num (.int 5)] = [("status", .num (.int 3))] := rfl

/-- Loop of `parse_partial_messagepack`, instrumented: the accumulator stores
`(offset, converted value)` pairs (the code stores only the value) and the
second component of the result counts executed loop iterations; both
instrumentations are needed to state the termination/order properties and do
not alter the control flow of the loop. -/
def ppAux (ext : Externals) (data : List Nat) (offset : Nat) (acc : List (Nat × Json)) :
    List (Nat × Json) × Nat :=
  if offset < data.length then
    match ext.readv (data.drop offset) with
    | some (value, consumed) =>
      if consumed = 0 then
        if 100 ≤ acc.length then (acc, 1)
        else
          let r := ppAux ext data (offset + 1) acc
          (r.1, r.2 + 1)
      else
        if 100 ≤ (acc ++ [(offset, convert_value_to_json ext.f32c value)]).length then
          (acc ++ [(offset, convert_value_to_json ext.f32c value)], 1)
        else
          let r := ppAux ext data (offset + consumed)
            (acc ++ [(offset, convert_value_to_json ext.f32c value)])
          (r.1, r.2 + 1)
    | none =>
      if 100 ≤ acc.length then (acc, 1)
      else
        let r := ppAux ext data (offset + 1) acc
        (r.1, r.2 + 1)
  else (acc, 0)
termination_by data.length - offset
decreasing_by all_goals omega

/-- Embedding of `parse_partial_messagepack`: the recovered values, in scan
order (projecting away the instrumentation of `ppAux`). -/
def parse_partial_messagepack (ext : Externals) (data : List Nat) : List Json :=
  (ppAux ext data 0 []).1.map (fun p => p.2)

/-- Predicate for the printable-byte count of `summarize_binary_data`. -/
def isTextByte (b : Nat) : Bool := (32 ≤ b && b ≤ 126) || b == 9 || b == 10 || b == 13

/-- Predicate for the control-byte count of `summarize_binary_data`. -/
def isControlByte (b : Nat) : Bool := b < 32 && b != 9 && b != 10 && b != 13

/-- Lowercase hex digits. -/
def hexDigits : List Char := "0123456789abcdef".data

/-- Two-digit lowercase hex rendering of a byte, as `format!("{:02x}", b)`. -/
def hexByte (b : Nat) : String :=
  String.mk [hexDigits.getD (b / 16 % 16) (Char.ofNat 63), hexDigits.getD (b % 16) (Char.ofNat 63)]

/-- Rendering of `format!("{:.2}%", num as f64 / den as f64 * 100.0)`. The
zero-denominator cases are the IEEE non-trapping results (`0.0/0.0` is NaN,
`x/0.0` with positive `x` is infinity); a nonzero denominator delegates to
the external float formatter. -/
def pctString (ext : Externals) (num den : Nat) : String :=
  if den = 0 then (if num = 0 then "NaN%" else "inf%") else ext.fmtPct num den

/-- Stable insertion used by `stableSort`. -/
def stableInsert (le : α → α → Bool) (x : α) : List α → List α
  | [] => [x]
  | y :: ys => if le x y then x :: y :: ys else y :: stableInsert le x ys

/-- Stable insertion sort. `Vec::sort_by` is a stable sort, and any two
stable sorts by the same total preorder produce the same list, so this is an
exact model of the byte-frequency ordering in `summarize_binary_data`. -/
def stableSort (le : α → α → Bool) : List α → List α
  | [] => []
  | x :: xs => stableInsert le x (stableSort le xs)

/-- One entry of the `most_common_bytes` list of `summarize_binary_data`. -/
def topByteJson (ext : Externals) (total b c : Nat) : Json :=
  mkObj [("byte", .num (.int b)),
         ("hex", .str ("0x" ++ hexByte b)),
         ("ascii", if 32 ≤ b ∧ b ≤ 126 then .str (String.mk [Char.ofNat b]) else .str "N/A"),
         ("count", .num (.int c)),
         ("percentage", .str (pctString ext c total))]

/-- Embedding of `summarize_binary_data`: byte-class counts, the top-10
frequency list (byte histogram filtered to occurring bytes, stably sorted by
descending count), percentage renderings, a hex dump of the first 32 bytes
and the threshold-based classification label. -/
def summarize_binary_data (ext : Externals) (data : List Nat) : Json :=
  let total_bytes := data.length
  let zero_bytes := (data.filter (fun b => b == 0)).length
  let text_bytes := (data.filter isTextByte).length
  let control_bytes := (data.filter isControlByte).length
  let high_bytes := (data.filter (fun b => 127 < b)).length
  let common_bytes := ((List.range 256).map (fun b => (b, data.count b))).filter
    (fun p => 0 < p.2)
  let sorted := stableSort (fun a b => b.2 ≤ a.2) common_bytes
  let top_bytes := (sorted.take 10).map (fun p => topByteJson ext total_bytes p.1 p.2)
  mkObj [("summary", .str "Binary data"),
    ("total_bytes", .num (.int total_bytes)),
    ("zero_bytes", .num (.int zero_bytes)),
    ("zero_percentage", .str (pctString ext zero_bytes total_bytes)),
    ("ascii_text_bytes", .num (.int text_bytes)),
    ("text_percentage", .str (pctString ext text_bytes total_bytes)),
    ("control_bytes", .num (.int control_bytes)),
    ("high_bytes", .num (.int high_bytes)),
    ("most_common_bytes", .arr top_bytes),
    ("first_32_bytes", .str (String.intercalate " " ((data.take 32).map hexByte))),
    ("appears_to_be", .str (
      if total_bytes * 3 / 4 < text_bytes then "Mostly ASCII text"
      else if total_bytes / 3 < zero_bytes then
        "Contains many zero bytes (possibly padded data or null-terminated strings)"
      else if total_bytes / 2 < high_bytes then
        "Contains many high bytes (possibly compressed or encrypted data)"
      else "General binary data"))]

/-- Model of `char::is_control` (Unicode category Cc). -/
def isControlChar (c : Char) : Bool :=
  c.toNat < 32 || (127 ≤ c.toNat && c.toNat ≤ 159)

/-- Embedding of `process_decompressed_data`: parse the decompressed bytes as
one MessagePack value and convert it (applying the shape-promotion
heuristic); on a parse failure fall back to partial recovery, then to the
UTF-8/JSON text interpretation, then to the binary profile. Empty input is
the only error. -/
def process_decompressed_data (ext : Externals) (decompressed : List Nat) (attempt : Nat) :
    Except String Json :=
  if decompressed.isEmpty then .error ("Empty data after decompression")
  else
    match ext.readv decompressed with
    | some (value, _) =>
      let json_value := convert_value_to_json ext.f32c value
      match json_value with
      | .arr items =>
        if 5 ≤ items.length then
          let result := promoteFields items
          if !result.isEmpty then .ok (.obj result) else .ok json_value
        else .ok json_value
      | _ => .ok json_value
    | none =>
      let partial_values := parse_partial_messagepack ext decompressed
      if !partial_values.isEmpty then .ok (.arr partial_values)
      else
        match ext.utf8 decompressed with
        | some s =>
          if s.data.any (fun c => !isControlChar c) then
            if s.trim.startsWith "\x7b" || s.trim.startsWith "[" then
              match ext.jparse s with
              | some parsed => .ok parsed
              | none => .ok (mkObj [("raw_string", .str s)])
            else .ok (mkObj [("raw_string", .str s)])
          else .ok (summarize_binary_data ext decompressed)
        | none => .ok (summarize_binary_data ext decompressed)

/-- Test for the LZ4 frame magic `[0x04, 0x22, 0x4D, 0x18]` at offset `i`
(with the `i + 4 <= data.len()` guard of the scan). -/
def magicAt (data : List Nat) (i : Nat) : Bool :=
  decide (i + 4 ≤ data.length) && data[i]? == some 4 && data[i + 1]? == some 34 &&
    data[i + 2]? == some 77 && data[i + 3]? == some 24

/-- Embedding of `decompress_data`: the seven-strategy waterfall. Empty input
fails immediately. Strategy 1 is the bounded decompression with bound
`(hint or payload length) * 10` cast `as i32`; strategy 2 is unbounded;
strategies 3-5 skip 1, 2, 4 leading bytes (guarded by length); strategy 6
scans the first 20 bytes for the LZ4 magic and tries the first hit (a `break`
follows the first hit whether or not it decompresses); strategy 7 brute
forces offsets 5..19. -/
def decompress_data (ext : Externals) (data : List Nat) (uncompressed_size : Nat) :
    Option (List Nat × Nat) :=
  if data.isEmpty then none
  else
    let max_size := if 0 < uncompressed_size then uncompressed_size * 10
      else data.length * 10
    let s7 := (List.range (min data.length 20)).findSome? (fun i =>
      if 4 < i ∧ i < data.length then (ext.dU (data.drop i)).map (fun d => (d, 7)) else none)
    let s6 := match (List.range (min data.length 20)).find? (fun i => magicAt data i) with
      | some i =>
        match ext.dU (data.drop i) with
        | some d => some (d, 6)
        | none => s7
      | none => s7
    let s5 := if 4 < data.length then
        match ext.dU (data.drop 4) with
        | some d => some (d, 5)
        | none => s6
      else s6
    let s4 := if 2 < data.length then
        match ext.dU (data.drop 2) with
        | some d => some (d, 4)
        | none => s5
      else s5
    let s3 := if 1 < data.length then
        match ext.dU (data.drop 1) with
        | some d => some (d, 3)
        | none => s4
      else s4
    let s2 := match ext.dU data with
      | some d => some (d, 2)
      | none => s3
    match ext.dB data (toI32 max_size) with
    | some d => some (d, 1)
    | none => s2

/-- The block-local marker produced when all decompression strategies fail. -/
def decompressErrMarker : Json :=
  mkObj [("error", .str "Failed to decompress data after multiple attempts")]

/-- The block-local marker produced when `process_decompressed_data` errors. -/
def processErrMarker : Json :=
  mkObj [("error", .str "Failed to process decompressed data")]

/-- Per-block body of the `process` loop for a supported (`ext_type == 98`)
block: size hint, reserialization, decompression, value processing; a
decompression failure or processing error becomes the block-local marker.
The outer `Option` propagates the panic model of the size-hint byte reads
(shown total below). -/
def processBlock (ext : Externals) (b : Block) : Option (List Nat × Json) :=
  match get_uncompressed_size b.header_data with
  | none => none
  | some uncompressed_size =>
    let msgpack_output := ext.reser b
    let human_readable :=
      match decompress_data ext b.data uncompressed_size with
      | some (decompressed, attempt) =>
        match process_decompressed_data ext decompressed attempt with
        | .ok j => j
        | .error _ => processErrMarker
      | none => decompressErrMarker
    some (msgpack_output, human_readable)

/-- The block loop of `process`: blocks are processed in input order; a block
whose `ext_type` differs from 98 aborts the whole batch with an error naming
the tag (discarding collected results); otherwise each block contributes its
`(reserialized bytes, decoded-or-marker value)` pair. -/
def process_blocks (ext : Externals) : List Block → Option (Except String (List (List Nat × Json)))
  | [] => some (.ok [])
  | b :: rest =>
    if b.ext_type = 98 then
      match processBlock ext b with
      | none => none
      | some r =>
        match process_blocks ext rest with
        | none => none
        | some (.ok rs) => some (.ok (r :: rs))
        | some (.error e) => some (.error e)
    else some (.error ("Unsupported extension type: " ++ toString b.ext_type))

mutual

/-- Embedding of `convert_json_to_msgpack` (lib.rs): integers representable
as `i64` become MessagePack integers, other numbers become `F64` (for an
integer beyond the `i64` range this is the lossy `as_f64` conversion,
delegated to the external bit-level function `fOf`; `serde_json` numbers are
always `i64`-, `u64`- or `f64`-valued, so the Rust function's "Invalid
number" error branch is unreachable and the embedding is total). -/
def convert_json_to_msgpack (fOf : Nat → Nat) : Json → MP
  | .null => .nil
  | .bool b => .bool b
  | .num (.int i) => if -(2 ^ 63) ≤ i ∧ i < 2 ^ 63 then .int i else .f64 (fOf i.toNat)
  | .num (.float bits) => .f64 bits
  | .str s => .str s
  | .arr a => .arr (convertJsonList fOf a)
  | .obj o => .map (convertJsonObj fOf o)

/-- Element loop of the array case of `convert_json_to_msgpack`. -/
def convertJsonList (fOf : Nat → Nat) : List Json → List MP
  | [] => []
  | x :: xs => convert_json_to_msgpack fOf x :: convertJsonList fOf xs

/-- Entry loop of the object case of `convert_json_to_msgpack`: each entry
becomes a string-keyed MessagePack map entry, in iteration order. -/
def convertJsonObj (fOf : Nat → Nat) : List (String × Json) → List (MP × MP)
  | [] => []
  | (k, v) :: rest => (.str k, convert_json_to_msgpack fOf v) :: convertJsonObj fOf rest

end

/-- Header construction of `create_output_json` (lib.rs): the fixed leading
byte 204 followed by the big-endian bytes of the uncompressed size, using
1 to 4 bytes depending on magnitude (each push is an `as u8` truncation). -/
def size_header (size : Nat) : List Nat :=
  if size ≤ 255 then [204, size % 2 ^ 8]
  else if size ≤ 65535 then [204, size / 2 ^ 8 % 2 ^ 8, size % 2 ^ 8]
  else if size ≤ 16777215 then
    [204, size / 2 ^ 16 % 2 ^ 8, size / 2 ^ 8 % 2 ^ 8, size % 2 ^ 8]
  else
    [204, size / 2 ^ 24 % 2 ^ 8, size / 2 ^ 16 % 2 ^ 8, size / 2 ^ 8 % 2 ^ 8, size % 2 ^ 8]

/-- A byte list as a JSON array of numbers (how `serde_json` serializes a
`Vec<u8>` field in `json!`). -/
def bytesToJson (bs : List Nat) : Json := .arr (bs.map byteJson)

/-- Embedding of `create_output_json` (lib.rs): the two-descriptor envelope
for a single block, with the `[204, size bytes]` header for the uncompressed
length and the fixed tag 98. -/
def create_output_json (uncompressed compressed : List Nat) : List Json :=
  [mkObj [("buffer", mkObj [("type", .str "Buffer"),
                            ("data", bytesToJson (size_header uncompressed.length))]),
          ("type", byteJson 98)],
   mkObj [("type", .str "Buffer"), ("data", bytesToJson compressed)]]

/-- The format decision of `analyze_input_format` on a parsed JSON array:
the input is routed to `parse_input` exactly when the array is non-empty and
some element has a `type` field and some element has a `buffer` field. -/
def analyze_is_lz4_block_array (arr : List Json) : Bool :=
  !arr.isEmpty && arr.any (fun item => (jsonGet item "type").isSome) &&
    arr.any (fun item => (jsonGet item "buffer").isSome)

/-- Strictly increasing key chain, the well-formedness of a key-sorted
association list (what `BTreeMap` iteration order guarantees). -/
def keysSorted : List (String × Json) → Bool
  | [] => true
  | [_] => true
  | a :: b :: t => strLt a.1 b.1 && keysSorted (b :: t)

mutual

/-- JSON values in the image of `serde_json` parsing whose integers are
`i64`-representable: the values covered by the round-trip claim. Objects
must have strictly sorted keys (as `BTreeMap` iteration yields). -/
def goodJson : Json → Bool
  | .null => true
  | .bool _ => true
  | .num (.int i) => decide (-(2 ^ 63) ≤ i ∧ i < 2 ^ 63)
  | .num (.float _) => true
  | .str _ => true
  | .arr a => goodJsonList a
  | .obj o => goodJsonObj o && keysSorted o

/-- All elements good. -/
def goodJsonList : List Json → Bool
  | [] => true
  | x :: xs => goodJson x && goodJsonList xs

/-- All values good. -/
def goodJsonObj : List (String × Json) → Bool
  | [] => true
  | (_, v) :: rest => goodJson v && goodJsonObj rest

end

/-- Whether the shape-promotion heuristic of `process_decompressed_data`
rewrites this top-level value. -/
def promotionApplies : Json → Bool
  | .arr items => decide (5 ≤ items.length) && !(promoteFields items).isEmpty
  | _ => false

/-- A trivial instantiation of the external collaborators (all calls fail or
return defaults), used to evaluate the pipeline at concrete inputs. -/
def extDummy : Externals :=
  ⟨fun _ => none, fun _ _ => none, fun _ => none, fun _ => none, fun _ => none,
   fun _ => [], fun _ => 0, fun _ _ => ""⟩

/-- Externals whose MessagePack reader decodes the byte `[0]` as the
problem-details-shaped array `["a", "b", 3, "d", "e"]`. -/
def extPromo : Externals :=
  ⟨fun bs => if bs = [0] then
      some (.arr [.str "a", .str "b", .int 3, .str "d", .str "e"], 1) else none,
   fun _ _ => none, fun _ => none, fun _ => none, fun _ => none,
   fun _ => [], fun _ => 0, fun _ _ => ""⟩

/-- Externals whose MessagePack reader decodes the byte `[0]` as the
all-numbers array `[1, 2, 3, 4, 5]`, and whose bounded decompressor maps the
payload `[0]` to itself. -/
def extNums : Externals :=
  ⟨fun bs => if bs = [0] then
      some (.arr [.int 1, .int 2, .int 3, .int 4, .int 5], 1) else none,
   fun d _ => if d = [0] then some [0] else none, fun _ => none, fun _ => none,
   fun _ => none, fun _ => [], fun _ => 0, fun _ _ => ""⟩

/-- Externals for the round-trip witness: the encoder output `[7]` reads back
as the string value "hi", and the bounded decompressor maps the compressed
payload `[8]` back to `[7]`. -/
def extRoundTrip : Externals :=
  ⟨fun bs => if bs = [7] then some (.str "hi", 1) else none,
   fun d _ => if d = [8] then some [7] else none, fun _ => none, fun _ => none,
   fun _ => none, fun _ => [], fun _ => 0, fun _ _ => ""⟩

/-- In-bounds list reads succeed. -/
theorem getElem?_total {l : List Nat} {i : Nat} (h : i < l.length) : ∃ b, l[i]? = some b :=
  ⟨_, List.getElem?_eq_getElem h⟩

/-- `readBE2` succeeds on in-bounds reads. -/
theorem readBE2_total {h : List Nat} {i : Nat} (hb : i + 2 ≤ h.length) :
    ∃ n, readBE2 h i = some n := by
  obtain ⟨a, ha⟩ := getElem?_total (l := h) (i := i) (by omega)
  obtain ⟨b, hbb⟩ := getElem?_total (l := h) (i := i + 1) (by omega)
  refine ⟨a * 256 + b, ?_⟩
  simp [readBE2, ha, hbb]

/-- `readBE3` succeeds on in-bounds reads. -/
theorem readBE3_total {h : List Nat} {i : Nat} (hb : i + 3 ≤ h.length) :
    ∃ n, readBE3 h i = some n := by
  obtain ⟨a, ha⟩ := getElem?_total (l := h) (i := i) (by omega)
  obtain ⟨b, hbb⟩ := getElem?_total (l := h) (i := i + 1) (by omega)
  obtain ⟨c, hc⟩ := getElem?_total (l := h) (i := i + 2) (by omega)
  refine ⟨a * 65536 + b * 256 + c, ?_⟩
  simp [readBE3, ha, hbb, hc]

/-- `readBE4` succeeds on in-bounds reads. -/
theorem readBE4_total {h : List Nat} {i : Nat} (hb : i + 4 ≤ h.length) :
    ∃ n, readBE4 h i = some n := by
  obtain ⟨a, ha⟩ := getElem?_total (l := h) (i := i) (by omega)
  obtain ⟨b, hbb⟩ := getElem?_total (l := h) (i := i + 1) (by omega)
  obtain ⟨c, hc⟩ := getElem?_total (l := h) (i := i + 2) (by omega)
  obtain ⟨d, hd⟩ := getElem?_total (l := h) (i := i + 3) (by omega)
  refine ⟨a * 16777216 + b * 65536 + c * 256 + d, ?_⟩
  simp [readBE4, ha, hbb, hc, hd]

/-- `readLE2` succeeds on in-bounds reads. -/
theorem readLE2_total {h : List Nat} {i : Nat} (hb : i + 2 ≤ h.length) :
    ∃ n, readLE2 h i = some n := by
  obtain ⟨a, ha⟩ := getElem?_total (l := h) (i := i) (by omega)
  obtain ⟨b, hbb⟩ := getElem?_total (l := h) (i := i + 1) (by omega)
  refine ⟨a + b * 256, ?_⟩
  simp [readLE2, ha, hbb]

/-- `readLE4` succeeds on in-bounds reads. -/
theorem readLE4_total {h : List Nat} {i : Nat} (hb : i + 4 ≤ h.length) :
    ∃ n, readLE4 h i = some n := by
  obtain ⟨a, ha⟩ := getElem?_total (l := h) (i := i) (by omega)
  obtain ⟨b, hbb⟩ := getElem?_total (l := h) (i := i + 1) (by omega)
  obtain ⟨c, hc⟩ := getElem?_total (l := h) (i := i + 2) (by omega)
  obtain ⟨d, hd⟩ := getElem?_total (l := h) (i := i + 3) (by omega)
  refine ⟨a + b * 256 + c * 65536 + d * 16777216, ?_⟩
  simp [readLE4, ha, hbb, hc, hd]

/-- The uint32 tail of the little-endian fallback never hits an
out-of-bounds read. -/
theorem gusLE4_total (header : List Nat) : ∃ n, gusLE4 header = some n := by
  unfold gusLE4
  by_cases h5 : 5 ≤ header.length
  · rw [if_pos h5]
    obtain ⟨v, hv⟩ := readLE4_total (h := header) (i := 1) (by omega)
    rw [hv]
    dsimp only
    by_cases hb : 0 < v ∧ v < 1000000
    · rw [if_pos hb]; exact ⟨_, rfl⟩
    · rw [if_neg hb]; exact ⟨_, rfl⟩
  · rw [if_neg h5]; exact ⟨_, rfl⟩

/-- The little-endian fallback never hits an out-of-bounds read. -/
theorem gusLEFallback_total (header : List Nat) : ∃ n, gusLEFallback header = some n := by
  unfold gusLEFallback
  by_cases h3 : 3 ≤ header.length
  · rw [if_pos h3]
    obtain ⟨v, hv⟩ := readLE2_total (h := header) (i := 1) (by omega)
    rw [hv]
    dsimp only
    by_cases hb : 0 < v ∧ v < 100000
    · rw [if_pos hb]; exact ⟨_, rfl⟩
    · rw [if_neg hb]; exact gusLE4_total header
  · rw [if_neg h3]; exact gusLE4_total header

/-- The long-header arm never hits an out-of-bounds read. -/
theorem gusLong_total (header : List Nat) : ∃ n, gusLong header = some n := by
  unfold gusLong
  by_cases h2 : 2 < header.length
  · rw [if_pos h2]
    obtain ⟨h1, h1eq⟩ := getElem?_total (l := header) (i := 1) (by omega)
    rw [h1eq]
    dsimp only
    by_cases d1 : h1 = 205
    · rw [if_pos d1]
      by_cases d2 : 4 ≤ header.length
      · rw [if_pos d2]; exact readBE2_total (by omega)
      · rw [if_neg d2]; exact ⟨_, rfl⟩
    · rw [if_neg d1]
      by_cases d3 : h1 = 206
      · rw [if_pos d3]
        by_cases d4 : 6 ≤ header.length
        · rw [if_pos d4]; exact readBE4_total (by omega)
        · rw [if_neg d4]; exact ⟨_, rfl⟩
      · rw [if_neg d3]; exact gusLEFallback_total header
  · rw [if_neg h2]; exact ⟨_, rfl⟩

/-- The 204 branch never hits an out-of-bounds read, given the initial
two-byte minimum. -/
theorem gus204_total (header : List Nat) (hl : 2 ≤ header.length) :
    ∃ n, gus204 header = some n := by
  unfold gus204
  by_cases c2 : header.length = 2
  · rw [if_pos c2]; exact getElem?_total (by omega)
  · rw [if_neg c2]
    by_cases c3 : header.length = 3
    · rw [if_pos c3]; exact readBE2_total (by omega)
    · rw [if_neg c3]
      by_cases c4 : header.length = 4
      · rw [if_pos c4]; exact readBE3_total (by omega)
      · rw [if_neg c4]
        by_cases c5 : header.length = 5
        · rw [if_pos c5]; exact readBE4_total (by omega)
        · rw [if_neg c5]; exact gusLong_total header

/-- Totality of the size-hint decoder: every byte access in
`get_uncompressed_size` is guarded by a sufficient length check, so the
function returns a size for a header of any length. -/
theorem get_uncompressed_size_total (header : List Nat) :
    ∃ n, get_uncompressed_size header = some n := by
  unfold get_uncompressed_size
  by_cases hl : header.length < 2
  · rw [if_pos hl]; exact ⟨_, rfl⟩
  · rw [if_neg hl]
    obtain ⟨h0, h0eq⟩ := getElem?_total (l := header) (i := 0) (by omega)
    rw [h0eq]
    dsimp only
    by_cases c1 : h0 = 205 ∧ 3 ≤ header.length
    · rw [if_pos c1]; exact readBE2_total (by omega)
    · rw [if_neg c1]
      by_cases c2 : h0 = 206 ∧ 5 ≤ header.length
      · rw [if_pos c2]; exact readBE4_total (by omega)
      · rw [if_neg c2]
        by_cases c3 : 4 ≤ header.length ∧ h0 = 204 ∧ header[1]? = some 12 ∧
            header[2]? = some 229 ∧ header[3]? = some 205
        · rw [if_pos c3]; exact ⟨_, rfl⟩
        · rw [if_neg c3]
          by_cases c4 : h0 = 204
          · rw [if_pos c4]; exact gus204_total header (by omega)
          · rw [if_neg c4]
            by_cases c5 : h0 = 205
            · rw [if_pos c5]
              by_cases c6 : 3 ≤ header.length
              · rw [if_pos c6]; exact readBE2_total (by omega)
              · rw [if_neg c6]; exact ⟨_, rfl⟩
            · rw [if_neg c5]
              by_cases c7 : h0 = 206
              · rw [if_pos c7]
                by_cases c8 : 5 ≤ header.length
                · rw [if_pos c8]; exact readBE4_total (by omega)
                · rw [if_neg c8]; exact ⟨_, rfl⟩
              · rw [if_neg c7]; exact ⟨_, rfl⟩

/-- The key order is irreflexive. -/
theorem charListLt_irrefl (a : List Char) : charListLt a a = false := by
  induction a with
  | nil => rfl
  | cons x xs ih => simp [charListLt, ih]

/-- The key order is transitive. -/
theorem charListLt_trans (a : List Char) : ∀ (b c : List Char), charListLt a b = true →
    charListLt b c = true → charListLt a c = true := by
  induction a with
  | nil =>
    intro b c hab hbc
    cases b <;> cases c <;> simp_all [charListLt]
  | cons x xs ih =>
    intro b c hab hbc
    cases b with
    | nil => simp_all [charListLt]
    | cons y ys =>
      cases c with
      | nil => simp_all [charListLt]
      | cons z zs =>
        simp only [charListLt, Bool.or_eq_true, Bool.and_eq_true, decide_eq_true_eq] at *
        rcases hab with h | ⟨h1, h2⟩ <;> rcases hbc with g | ⟨g1, g2⟩
        · exact Or.inl (by omega)
        · exact Or.inl (by omega)
        · exact Or.inl (by omega)
        · exact Or.inr ⟨by omega, ih ys zs h2 g2⟩

/-- The key order is asymmetric. -/
theorem charListLt_asymm (a : List Char) : ∀ (b : List Char), charListLt a b = true →
    charListLt b a = false := by
  induction a with
  | nil => intro b hab; cases b <;> simp_all [charListLt]
  | cons x xs ih =>
    intro b hab
    cases b with
    | nil => simp_all [charListLt]
    | cons y ys =>
      simp only [charListLt, Bool.or_eq_true, Bool.and_eq_true, decide_eq_true_eq,
        Bool.or_eq_false_iff, Bool.and_eq_false_iff, decide_eq_false_iff_not] at *
      rcases hab with h | ⟨h1, h2⟩
      · exact ⟨by omega, Or.inl (by omega)⟩
      · exact ⟨by omega, Or.inr (ih ys h2)⟩

/-- Strictly smaller keys are different. -/
theorem charListLt_ne {a b : List Char} (h : charListLt a b = true) : a ≠ b := by
  intro hab
  rw [hab] at h
  rw [charListLt_irrefl] at h
  exact Bool.false_ne_true h

/-- `strLt` transfers to string inequality. -/
theorem strLt_ne {a b : String} (h : strLt a b = true) : a ≠ b := by
  intro hab
  exact charListLt_ne h (by rw [hab])

/-- `strLt` is asymmetric. -/
theorem strLt_asymm {a b : String} (h : strLt a b = true) : strLt b a = false :=
  charListLt_asymm a.data b.data h

/-- `strLt` is transitive. -/
theorem strLt_trans {a b c : String} (h1 : strLt a b = true) (h2 : strLt b c = true) :
    strLt a c = true :=
  charListLt_trans a.data b.data c.data h1 h2

/-- Insertion never yields the empty map. -/
theorem mapInsert_ne_nil (m : List (String × Json)) (k : String) (v : Json) :
    mapInsert m k v ≠ [] := by
  cases m with
  | nil => simp [mapInsert]
  | cons p rest =>
    obtain ⟨k2, v2⟩ := p
    unfold mapInsert
    split_ifs <;> simp

/-- Inserting a key strictly above every key of a sorted list appends the
entry at the end. -/
theorem mapInsert_append (m : List (String × Json)) (k : String) (v : Json)
    (h : ∀ p ∈ m, strLt p.1 k = true) : mapInsert m k v = m ++ [(k, v)] := by
  induction m with
  | nil => rfl
  | cons p rest ih =>
    obtain ⟨k2, v2⟩ := p
    have hk2 : strLt k2 k = true := h (k2, v2) (by simp)
    unfold mapInsert
    rw [if_neg (by simp [strLt_asymm hk2]), if_neg (Ne.symm (strLt_ne hk2))]
    simp only [List.cons_append, List.cons.injEq, true_and]
    exact ih (fun p hp => h p (by simp [hp]))

/-- A sorted association list has its head key strictly below all later
keys. -/
theorem keysSorted_cons : ∀ {k : String} {v : Json} {rest : List (String × Json)},
    keysSorted ((k, v) :: rest) = true →
    keysSorted rest = true ∧ ∀ p ∈ rest, strLt k p.1 = true := by
  intro k v rest
  induction rest generalizing k v with
  | nil => intro _; exact ⟨rfl, by simp⟩
  | cons q t ih =>
    obtain ⟨k2, v2⟩ := q
    intro h
    unfold keysSorted at h
    rw [Bool.and_eq_true] at h
    obtain ⟨hlt, hrest⟩ := h
    obtain ⟨_, hall⟩ := ih hrest
    refine ⟨hrest, ?_⟩
    intro p hp
    rcases List.mem_cons.mp hp with rfl | hp
    · exact hlt
    · exact strLt_trans hlt (hall p hp)

mutual

/-- Round trip of the two value conversions: a good JSON value survives
lib.rs's `convert_json_to_msgpack` followed by main.rs's
`convert_value_to_json` unchanged. -/
theorem conv_rt (f32c fOf : Nat → Nat) : ∀ (v : Json), goodJson v = true →
    convert_value_to_json f32c (convert_json_to_msgpack fOf v) = v
  | .null, _ => rfl
  | .bool _, _ => rfl
  | .num (.int i), h => by
    simp only [goodJson, decide_eq_true_eq] at h
    simp only [convert_json_to_msgpack, if_pos h]
    simp only [convert_value_to_json, if_pos h]
  | .num (.float _), _ => rfl
  | .str _, _ => rfl
  | .arr a, h => by
    simp only [goodJson] at h
    simp only [convert_json_to_msgpack, convert_value_to_json]
    rw [conv_rt_list f32c fOf a h]
  | .obj o, h => by
    simp only [goodJson, Bool.and_eq_true] at h
    simp only [convert_json_to_msgpack, convert_value_to_json]
    rw [conv_rt_obj f32c fOf o [] h.1 h.2 (by simp)]
    simp

/-- Round trip, elementwise on arrays. -/
theorem conv_rt_list (f32c fOf : Nat → Nat) : ∀ (l : List Json), goodJsonList l = true →
    convList f32c (convertJsonList fOf l) = l
  | [], _ => rfl
  | x :: xs, h => by
    simp only [goodJsonList, Bool.and_eq_true] at h
    simp only [convertJsonList, convList]
    rw [conv_rt f32c fOf x h.1, conv_rt_list f32c fOf xs h.2]

/-- Round trip on objects: re-inserting the converted entries of a sorted
object into a map whose keys all lie strictly below them rebuilds the object
by appending. -/
theorem conv_rt_obj (f32c fOf : Nat → Nat) :
    ∀ (o acc : List (String × Json)), goodJsonObj o = true → keysSorted o = true →
    (∀ p ∈ acc, ∀ q ∈ o, strLt p.1 q.1 = true) →
    convMapAux f32c (convertJsonObj fOf o) acc = acc ++ o
  | [], acc, _, _, _ => by simp [convertJsonObj, convMapAux]
  | (k, v) :: rest, acc, hg, hs, hacc => by
    simp only [goodJsonObj, Bool.and_eq_true] at hg
    obtain ⟨hrest, hall⟩ := keysSorted_cons hs
    simp only [convertJsonObj, convMapAux]
    rw [conv_rt f32c fOf v hg.1]
    rw [mapInsert_append acc k v (fun p hp => hacc p hp (k, v) (by simp))]
    rw [conv_rt_obj f32c fOf rest (acc ++ [(k, v)]) hg.2 hrest (by
      intro p hp q hq
      rcases List.mem_append.mp hp with hp | hp
      · exact hacc p hp q (List.mem_cons_of_mem _ hq)
      · have hpk : p = (k, v) := by simpa using hp
        subst hpk
        exact hall q hq)]
    simp

end

/-- `as_u64` on a byte-sized JSON number recovers the byte. -/
theorem as_u64_byte (b : Nat) (hb : b < 2 ^ 64) : as_u64 (byteJson b) = some b := by
  simp only [byteJson, as_u64]
  rw [if_pos (show 0 ≤ (b : Int) ∧ (b : Int) < 2 ^ 64 by
    refine ⟨Int.natCast_nonneg b, ?_⟩
    exact_mod_cast hb)]
  simp

/-- Extracting a byte array that was serialized from bytes recovers the
bytes, truncated `as u8`. -/
theorem extract_bytes_map (bs : List Nat) (h : ∀ b ∈ bs, b < 2 ^ 64) :
    extract_bytes (bs.map byteJson) = .ok (bs.map (fun b => b % 2 ^ 8)) := by
  induction bs with
  | nil => rfl
  | cons b rest ih =>
    have hb : b < 2 ^ 64 := h b (by simp)
    rw [List.map_cons, List.map_cons]
    rw [extract_bytes]
    rw [as_u64_byte b hb]
    dsimp only
    rw [ih (fun x hx => h x (by simp [hx]))]

/-- `extract_byte_array` on a serialized byte list. -/
theorem extract_byte_array_toJson (bs : List Nat) (h : ∀ b ∈ bs, b < 2 ^ 64) :
    extract_byte_array (bytesToJson bs) = .ok (bs.map (fun b => b % 2 ^ 8)) := by
  simp only [bytesToJson, extract_byte_array]
  exact extract_bytes_map bs h

/-- Truncation is the identity on byte-sized values. -/
theorem map_mod_256 (bs : List Nat) (h : ∀ b ∈ bs, b < 2 ^ 8) :
    bs.map (fun b => b % 2 ^ 8) = bs := by
  induction bs with
  | nil => rfl
  | cons b rest ih =>
    simp only [List.map_cons, List.cons.injEq]
    exact ⟨Nat.mod_eq_of_lt (h b (by simp)), ih (fun x hx => h x (by simp [hx]))⟩

/-- A scan step at a descriptor without a usable `type` discriminator
advances by one position without failing. -/
theorem parseGo_skip (header data : Json) (rest : List Json) (i : Nat) (acc : List Block)
    (hty : (jsonGet header "type").bind as_u64 = none) :
    parseGo (header :: data :: rest) i acc = parseGo (data :: rest) (i + 1) acc := by
  rw [parseGo]
  rw [hty]

/-- A scan step at a descriptor that exposes a `type` discriminator but has
no `buffer` field is a hard error naming the index. -/
theorem parseGo_missing_buffer (header data : Json) (rest : List Json) (i : Nat)
    (acc : List Block) (t : Nat)
    (hty : (jsonGet header "type").bind as_u64 = some t)
    (hbuf : jsonGet header "buffer" = none) :
    parseGo (header :: data :: rest) i acc =
      .error ("Missing buffer in block at index " ++ toString i) := by
  rw [parseGo]
  rw [hty]
  dsimp only
  rw [hbuf]

/-- If no descriptor exposes a usable `type`, the scan reaches the end with
whatever it started with. -/
theorem parseGo_all_skipped :
    ∀ (l : List Json), (∀ d ∈ l, (jsonGet d "type").bind as_u64 = none) →
    ∀ (i : Nat) (acc : List Block),
    parseGo l i acc = if acc.isEmpty then .error ("No valid LZ4 blocks found in input")
      else .ok acc := by
  intro l
  induction l with
  | nil =>
    intro _ i acc
    rfl
  | cons a t ih =>
    intro h i acc
    cases t with
    | nil => rfl
    | cons b t2 =>
      rw [parseGo_skip a b t2 i acc (h a (by simp))]
      exact ih (fun d hd => h d (List.mem_cons_of_mem _ hd)) (i + 1) acc

/-- Parsing a single well-formed descriptor pair yields the one block, with
the `as i8` truncated tag. -/
theorem parse_input_pair (d0 d1 buf da : Json) (t : Nat) (hb pb : List Nat)
    (hty : jsonGet d0 "type" = some (byteJson t)) (htl : t < 2 ^ 64)
    (hbuf : jsonGet d0 "buffer" = some buf)
    (hhd : extract_byte_array (jsonIndex buf "data") = .ok hb)
    (hda : jsonGet d1 "data" = some da)
    (hpd : extract_byte_array da = .ok pb) :
    parse_input [d0, d1] = .ok [⟨toI8 t, hb, pb⟩] := by
  unfold parse_input
  rw [if_neg (by simp)]
  show parseGo (d0 :: d1 :: []) 0 [] = _
  rw [parseGo]
  rw [hty]
  rw [Option.some_bind]
  rw [as_u64_byte t htl]
  dsimp only
  rw [hbuf]
  dsimp only
  rw [hhd]
  dsimp only
  rw [hda]
  dsimp only
  rw [hpd]
  rfl

/-- The per-block body always yields a result (the size-hint decoder is
total). -/
theorem processBlock_total (ext : Externals) (b : Block) :
    ∃ r, processBlock ext b = some r := by
  obtain ⟨u, hu⟩ := get_uncompressed_size_total b.header_data
  unfold processBlock
  rw [hu]
  dsimp only
  exact ⟨_, rfl⟩

/-- A block whose decompression waterfall fails contributes the block-local
error marker. -/
theorem processBlock_marker (ext : Externals) (b : Block) (u : Nat)
    (hu : get_uncompressed_size b.header_data = some u)
    (hd : decompress_data ext b.data u = none) :
    processBlock ext b = some (ext.reser b, decompressErrMarker) := by
  unfold processBlock
  rw [hu]
  dsimp only
  rw [hd]

/-- A batch whose blocks all carry the supported tag is processed to the end:
one result per block, in order, whatever each block's decompression or
parsing fate. -/
theorem process_blocks_ok (ext : Externals) (blocks : List Block)
    (h : ∀ b ∈ blocks, b.ext_type = 98) :
    ∃ rs, process_blocks ext blocks = some (.ok rs) ∧ rs.length = blocks.length ∧
      ∀ i, i < blocks.length →
        processBlock ext (blocks.getD i ⟨0, [], []⟩) = some (rs.getD i ([], .null)) := by
  induction blocks with
  | nil => exact ⟨[], rfl, rfl, by intro i hi; simp at hi⟩
  | cons b rest ih =>
    obtain ⟨rs, hrs, hlen, helem⟩ := ih (fun x hx => h x (List.mem_cons_of_mem _ hx))
    obtain ⟨r, hr⟩ := processBlock_total ext b
    refine ⟨r :: rs, ?_, by simp [hlen], ?_⟩
    · unfold process_blocks
      rw [if_pos (h b (by simp)), hr, hrs]
    · intro i hi
      cases i with
      | zero => simpa using hr
      | succ j =>
        have := helem j (by simpa using hi)
        simpa using this

/-- The first block with an unsupported tag aborts the batch with an error
naming that tag, discarding everything already collected. -/
theorem process_blocks_abort (ext : Externals) :
    ∀ (blocks : List Block) (i : Nat), i < blocks.length →
    (blocks.getD i ⟨0, [], []⟩).ext_type ≠ 98 →
    (∀ j, j < i → (blocks.getD j ⟨0, [], []⟩).ext_type = 98) →
    process_blocks ext blocks = some (.error
      ("Unsupported extension type: " ++ toString (blocks.getD i ⟨0, [], []⟩).ext_type)) := by
  intro blocks
  induction blocks with
  | nil => intro i hi; simp at hi
  | cons b rest ih =>
    intro i hi hbad hgood
    cases i with
    | zero =>
      unfold process_blocks
      rw [if_neg (by simpa using hbad)]
      simp
    | succ j =>
      have hb98 : b.ext_type = 98 := by simpa using hgood 0 (by omega)
      obtain ⟨r, hr⟩ := processBlock_total ext b
      have hrest := ih j (by simpa using hi) (by simpa using hbad)
        (fun k hk => by simpa using hgood (k + 1) (by omega))
      unfold process_blocks
      rw [if_pos hb98, hr, hrest]
      simp

/-- The empty payload fails `decompress_data` before any strategy runs, for
every decompressor and every hint. -/
theorem decompress_data_empty (ext : Externals) (uncompressed_size : Nat) :
    decompress_data ext [] uncompressed_size = none := rfl

/-- When the bounded decompressor succeeds at the computed bound, the
waterfall stops at strategy 1 with its result. -/
theorem decompress_data_first (ext : Externals) (data buffer : List Nat)
    (uncompressed_size : Nat) (hne : data.isEmpty = false)
    (hpos : 0 < uncompressed_size)
    (hdb : ext.dB data (toI32 (uncompressed_size * 10)) = some buffer) :
    decompress_data ext data uncompressed_size = some (buffer, 1) := by
  unfold decompress_data
  rw [hne]
  simp only [Bool.false_eq_true, if_false]
  rw [if_pos hpos]
  rw [hdb]

/-- The `as i32` cast is the identity below `2 ^ 31`. -/
theorem toI32_small (m : Nat) (h : m < 2 ^ 31) : toI32 m = (m : Int) := by
  unfold toI32
  rw [Nat.mod_eq_of_lt (by omega)]
  rw [if_pos (by omega)]

/-- The size-hint decoder on a two-byte 204 header reads the second byte. -/
theorem gus_204_len2 (x : Nat) :
    get_uncompressed_size [204, x] = some x := by
  simp [get_uncompressed_size, gus204]

/-- The size-hint decoder on a three-byte 204 header reads two bytes
big-endian. -/
theorem gus_204_len3 (a b : Nat) :
    get_uncompressed_size [204, a, b] = some (a * 256 + b) := by
  simp [get_uncompressed_size, gus204, readBE2]

/-- The size-hint decoder on a four-byte 204 header reads three bytes
big-endian, unless they are the hard-coded sample pattern. -/
theorem gus_204_len4 (a b c : Nat) (hno : ¬(a = 12 ∧ b = 229 ∧ c = 205)) :
    get_uncompressed_size [204, a, b, c] = some (a * 65536 + b * 256 + c) := by
  unfold get_uncompressed_size
  rw [if_neg (by simp)]
  show (if (204 : Nat) = 205 ∧ _ then _ else _) = _
  rw [if_neg (by norm_num), if_neg (by norm_num)]
  rw [if_neg (by
    intro hc
    obtain ⟨_, _, ha, hb2, hc2⟩ := hc
    simp at ha hb2 hc2
    exact hno ⟨ha, hb2, hc2⟩)]
  simp [gus204, readBE3]

/-- The size-hint decoder on a five-byte 204 header reads four bytes
big-endian, unless the first three are the hard-coded sample pattern. -/
theorem gus_204_len5 (a b c d : Nat) (hno : ¬(a = 12 ∧ b = 229 ∧ c = 205)) :
    get_uncompressed_size [204, a, b, c, d] =
      some (a * 16777216 + b * 65536 + c * 256 + d) := by
  unfold get_uncompressed_size
  rw [if_neg (by simp)]
  show (if (204 : Nat) = 205 ∧ _ then _ else _) = _
  rw [if_neg (by norm_num), if_neg (by norm_num)]
  rw [if_neg (by
    intro hc
    obtain ⟨_, _, ha, hb2, hc2⟩ := hc
    simp at ha hb2 hc2
    exact hno ⟨ha, hb2, hc2⟩)]
  simp [gus204, readBE4]

/-- On every header the encoder emits — except the one whose three size
bytes collide with the hard-coded `[204, 12, 229, 205]` sample (uncompressed
length 845261), excluded together with lengths whose ten-fold bound cannot
be represented — the size-hint decoder recovers the exact uncompressed
length. -/
theorem gus_size_header (n : Nat) (h1 : 1 ≤ n) (h2 : n ≠ 845261)
    (h3 : n ≤ 214748364) :
    get_uncompressed_size (size_header n) = some n := by
  unfold size_header
  split_ifs with ha hb hc
  · rw [Nat.mod_eq_of_lt (by omega)]
    exact gus_204_len2 n
  · rw [gus_204_len3]
    congr 1
    omega
  · rw [gus_204_len4 _ _ _ (by omega)]
    congr 1
    omega
  · rw [gus_204_len5 _ _ _ _ (by omega)]
    congr 1
    omega

/-- Successful parse path of `process_decompressed_data` when the converted
value is not rewritten by the shape promotion. -/
theorem pdd_no_promotion (ext : Externals) (decompressed : List Nat) (attempt : Nat)
    (value : MP) (consumed : Nat) (v : Json)
    (hne : decompressed.isEmpty = false)
    (hrv : ext.readv decompressed = some (value, consumed))
    (hconv : convert_value_to_json ext.f32c value = v)
    (hpromo : promotionApplies v = false) :
    process_decompressed_data ext decompressed attempt = .ok v := by
  unfold process_decompressed_data
  rw [hne]
  simp only [Bool.false_eq_true, if_false]
  rw [hrv]
  dsimp only
  rw [hconv]
  cases v with
  | arr items =>
    dsimp only
    simp only [promotionApplies] at hpromo
    by_cases h5 : 5 ≤ items.length
    · rw [if_pos h5]
      have hempty : (promoteFields items).isEmpty = true := by
        rcases Bool.and_eq_false_iff.mp hpromo with h | h
        · exact absurd h5 (by simpa using h)
        · simpa using h
      rw [hempty]
      simp
    · rw [if_neg h5]
  | null => rfl
  | bool b => rfl
  | num n => rfl
  | str s => rfl
  | obj kvs => rfl

/-- Successful parse path of `process_decompressed_data` on an array of at
least five elements: the result is the promoted object exactly when some
positional check passed, the unmodified array otherwise. -/
theorem pdd_promotion (ext : Externals) (decompressed : List Nat) (attempt : Nat)
    (value : MP) (consumed : Nat) (items : List Json)
    (hne : decompressed.isEmpty = false)
    (hrv : ext.readv decompressed = some (value, consumed))
    (hconv : convert_value_to_json ext.f32c value = .arr items)
    (h5 : 5 ≤ items.length) :
    process_decompressed_data ext decompressed attempt =
      (if (promoteFields items).isEmpty then .ok (.arr items)
       else .ok (.obj (promoteFields items))) := by
  unfold process_decompressed_data
  rw [hne]
  simp only [Bool.false_eq_true, if_false]
  rw [hrv]
  dsimp only
  rw [hconv]
  dsimp only
  rw [if_pos h5]
  by_cases he : (promoteFields items).isEmpty
  · simp [he]
  · rw [Bool.not_eq_true] at he
    simp [he]

/-- A string-position promotion step leaves the map empty exactly when it
started empty and the element is not a string. -/
theorem promoteStr_eq_nil_iff (r : List (String × Json)) (k : String) (o : Option Json) :
    promoteStr r k o = [] ↔ r = [] ∧ ∀ s, o ≠ some (.str s) := by
  cases o with
  | none => simp [promoteStr]
  | some j => cases j <;> simp [promoteStr, mapInsert_ne_nil]

/-- A number-position promotion step leaves the map empty exactly when it
started empty and the element is not a number. -/
theorem promoteNum_eq_nil_iff (r : List (String × Json)) (k : String) (o : Option Json) :
    promoteNum r k o = [] ↔ r = [] ∧ ∀ n, o ≠ some (.num n) := by
  cases o with
  | none => simp [promoteNum]
  | some j => cases j <;> simp [promoteNum, mapInsert_ne_nil]

/-- The candidate object of the shape promotion is empty exactly when all
five positional type checks fail. -/
theorem promoteFields_empty_iff (items : List Json) :
    promoteFields items = [] ↔
      (∀ s, items[0]? ≠ some (.str s)) ∧ (∀ s, items[1]? ≠ some (.str s)) ∧
      (∀ n, items[2]? ≠ some (.num n)) ∧ (∀ s, items[3]? ≠ some (.str s)) ∧
      (∀ s, items[4]? ≠ some (.str s)) := by
  unfold promoteFields
  rw [promoteStr_eq_nil_iff, promoteStr_eq_nil_iff, promoteNum_eq_nil_iff,
    promoteStr_eq_nil_iff, promoteStr_eq_nil_iff]
  simp only [List.nil_eq, true_and]
  tauto

/-- The loop of the partial-recovery parser executes at most
`remaining length` iterations: every iteration advances the offset by at
least one byte. -/
theorem ppAux_steps (ext : Externals) (data : List Nat) :
    ∀ (offset : Nat) (acc : List (Nat × Json)),
    (ppAux ext data offset acc).2 ≤ data.length - offset := by
  intro offset acc
  induction offset, acc using ppAux.induct ext data <;>
    (unfold ppAux; simp_all) <;>
    (try (split_ifs <;> (try simp_all) <;> omega)) <;>
    (try omega)

/-- The partial-recovery accumulator never exceeds the hard cap of 100
recovered values. -/
theorem ppAux_len (ext : Externals) (data : List Nat) :
    ∀ (offset : Nat) (acc : List (Nat × Json)),
    acc.length < 100 → ((ppAux ext data offset acc).1).length ≤ 100 := by
  intro offset acc
  induction offset, acc using ppAux.induct ext data <;>
    intro h <;>
    (unfold ppAux; simp_all) <;>
    (try (split_ifs <;> (try simp_all) <;> omega)) <;>
    (try omega)

/-- The recorded scan positions of the partial-recovery parser are strictly
increasing: values are recovered in input order. -/
theorem ppAux_pairwise (ext : Externals) (data : List Nat) :
    ∀ (offset : Nat) (acc : List (Nat × Json)),
    (∀ p ∈ acc, p.1 < offset) → acc.Pairwise (fun a b => a.1 < b.1) →
    ((ppAux ext data offset acc).1).Pairwise (fun a b => a.1 < b.1) := by
  intro offset acc
  induction offset, acc using ppAux.induct ext data with
  | case1 offset acc hlt value hcap hrv =>
    intro hb hp
    unfold ppAux
    rw [if_pos hlt, hrv]
    dsimp only
    rw [if_pos hcap]
    exact hp
  | case2 offset acc hlt value hcap hrv ih =>
    intro hb hp
    unfold ppAux
    rw [if_pos hlt, hrv]
    dsimp only
    rw [if_neg hcap]
    exact ih (fun p hm => by have := hb p hm; omega) hp
  | case3 offset acc hlt value consumed hrv hc hcap =>
    intro hb hp
    unfold ppAux
    rw [if_pos hlt, hrv]
    dsimp only
    rw [if_neg hc, if_pos hcap]
    rw [List.pairwise_append]
    refine ⟨hp, by simp, ?_⟩
    intro a ha b hbm
    have hbm2 : b = (offset, convert_value_to_json ext.f32c value) := by simpa using hbm
    rw [hbm2]
    exact hb a ha
  | case4 offset acc hlt value consumed hrv hc hcap ih =>
    intro hb hp
    unfold ppAux
    rw [if_pos hlt, hrv]
    dsimp only
    rw [if_neg hc, if_neg hcap]
    refine ih ?_ ?_
    · intro p hm
      rcases List.mem_append.mp hm with hm | hm
      · have := hb p hm
        omega
      · have hp2 : p = (offset, convert_value_to_json ext.f32c value) := by simpa using hm
        rw [hp2]
        simp
        omega
    · rw [List.pairwise_append]
      refine ⟨hp, by simp, ?_⟩
      intro a ha b hbm
      have hbm2 : b = (offset, convert_value_to_json ext.f32c value) := by simpa using hbm
      rw [hbm2]
      exact hb a ha
  | case5 offset acc hlt hrv hcap =>
    intro hb hp
    unfold ppAux
    rw [if_pos hlt, hrv]
    dsimp only
    rw [if_pos hcap]
    exact hp
  | case6 offset acc hlt hrv hcap ih =>
    intro hb hp
    unfold ppAux
    rw [if_pos hlt, hrv]
    dsimp only
    rw [if_neg hcap]
    exact ih (fun p hm => by have := hb p hm; omega) hp
  | case7 offset acc hge =>
    intro hb hp
    unfold ppAux
    rw [if_neg (by omega)]
    exact hp

/-- The size header of the encoder consists of byte-sized values. -/
theorem size_header_bytes_lt (size : Nat) : ∀ b ∈ size_header size, b < 2 ^ 8 := by
  unfold size_header
  split_ifs <;> intro b hb <;> fin_cases hb <;> omega

/-- A single supported block is processed alone. -/
theorem process_blocks_single (ext : Externals) (blk : Block) (r : List Nat × Json)
    (hb98 : blk.ext_type = 98) (hr : processBlock ext blk = some r) :
    process_blocks ext [blk] = some (.ok [r]) := by
  unfold process_blocks
  rw [if_pos hb98, hr]
  rfl

/-- The per-block body on the happy path: known hint, successful
decompression, successful processing. -/
theorem processBlock_ok_of (ext : Externals) (blk : Block) (u : Nat)
    (dec : List Nat) (att : Nat) (v : Json)
    (hu : get_uncompressed_size blk.header_data = some u)
    (hd : decompress_data ext blk.data u = some (dec, att))
    (hp : process_decompressed_data ext dec att = .ok v) :
    processBlock ext blk = some (ext.reser blk, v) := by
  unfold processBlock
  rw [hu]
  dsimp only
  rw [hd]
  dsimp only
  rw [hp]

/-- A batch containing any unsupported tag ends in a batch-wide error. -/
theorem process_blocks_any_bad (ext : Externals) :
    ∀ (blocks : List Block), (∃ b ∈ blocks, b.ext_type ≠ 98) →
    ∃ e, process_blocks ext blocks = some (.error e) := by
  intro blocks
  induction blocks with
  | nil => intro h; simp at h
  | cons b rest ih =>
    intro h
    by_cases hb : b.ext_type = 98
    · obtain ⟨r, hr⟩ := processBlock_total ext b
      have hbad : ∃ x ∈ rest, x.ext_type ≠ 98 := by
        obtain ⟨x, hx, hxt⟩ := h
        rcases List.mem_cons.mp hx with rfl | hx2
        · exact absurd hb hxt
        · exact ⟨x, hx2, hxt⟩
      obtain ⟨e, he⟩ := ih hbad
      refine ⟨e, ?_⟩
      unfold process_blocks
      rw [if_pos hb, hr, he]
    · refine ⟨"Unsupported extension type: " ++ toString b.ext_type, ?_⟩
      unfold process_blocks
      rw [if_neg hb]

/-- Parsing the envelope produced by `create_output_json` yields the single
tag-98 block with the size header and the compressed payload. -/
theorem parse_input_envelope (buffer compressed : List Nat)
    (hcb : ∀ b ∈ compressed, b < 2 ^ 8) :
    parse_input (create_output_json buffer compressed) =
      .ok [⟨98, size_header buffer.length, compressed⟩] := by
  have hhb := size_header_bytes_lt buffer.length
  have h := parse_input_pair
    (mkObj [("buffer", mkObj [("type", .str "Buffer"),
       ("data", bytesToJson (size_header buffer.length))]), ("type", byteJson 98)])
    (mkObj [("type", .str "Buffer"), ("data", bytesToJson compressed)])
    (mkObj [("type", .str "Buffer"), ("data", bytesToJson (size_header buffer.length))])
    (bytesToJson compressed)
    98 (size_header buffer.length) compressed
    rfl (by norm_num) rfl
    (by
      rw [show jsonIndex (mkObj [("type", .str "Buffer"),
        ("data", bytesToJson (size_header buffer.length))]) "data" =
          bytesToJson (size_header buffer.length) from rfl]
      rw [extract_byte_array_toJson _ (fun b hb => by have := hhb b hb; omega)]
      rw [map_mod_256 _ hhb])
    rfl
    (by
      rw [extract_byte_array_toJson _ (fun b hb => by have := hcb b hb; omega)]
      rw [map_mod_256 _ hcb])
  rw [show toI8 98 = 98 from rfl] at h
  exact h

/-- Claim C1 (amended): for a decompressed top-level array of at least five
elements, the heuristic builds an object from the positional fields whose
individual type checks pass and returns that object when at least one check
passed; the array is returned unmodified exactly when all five checks fail
(not, as claimed, whenever any single check fails). -/
theorem c1_shape_promotion (ext : Externals) (decompressed : List Nat) (attempt : Nat)
    (value : MP) (consumed : Nat) (items : List Json)
    (hne : decompressed.isEmpty = false)
    (hrv : ext.readv decompressed = some (value, consumed))
    (hconv : convert_value_to_json ext.f32c value = .arr items)
    (h5 : 5 ≤ items.length) :
    process_decompressed_data ext decompressed attempt =
      (if (promoteFields items).isEmpty then .ok (.arr items)
       else .ok (.obj (promoteFields items))) ∧
    (promoteFields items = [] ↔
      (∀ s, items[0]? ≠ some (.str s)) ∧ (∀ s, items[1]? ≠ some (.str s)) ∧
      (∀ n, items[2]? ≠ some (.num n)) ∧ (∀ s, items[3]? ≠ some (.str s)) ∧
      (∀ s, items[4]? ≠ some (.str s))) :=
  ⟨pdd_promotion ext decompressed attempt value consumed items hne hrv hconv h5,
   promoteFields_empty_iff items⟩

/-- Witness for C1: a problem-details-shaped array is promoted to the
five-field object. -/
theorem c1_witness :
    process_decompressed_data extPromo [0] 1 =
      .ok (.obj [("detail", .str "d"), ("instance", .str "e"), ("status", .num (.int 3)),
        ("title", .str "b"), ("type", .str "a")]) := by
  have h := c1_shape_promotion extPromo [0] 1
    (.arr [.str "a", .str "b", .int 3, .str "d", .str "e"]) 1
    [.str "a", .str "b", .num (.int 3), .str "d", .str "e"]
    rfl rfl rfl (by norm_num)
  rw [h.1]
  rfl

/-- Counterexample for C1 as stated: the all-numbers array `[1, 2, 3, 4, 5]`
fails four of the five type checks, yet it is not returned unmodified — the
single passing `status` check produces a one-field object. -/
theorem c1_counterexample :
    process_decompressed_data extNums [0] 1 = .ok (.obj [("status", .num (.int 3))]) ∧
    Json.obj [("status", .num (.int 3))] ≠
      .arr [.num (.int 1), .num (.int 2), .num (.int 3), .num (.int 4), .num (.int 5)] :=
  ⟨rfl, fun h => Json.noConfusion h⟩

/-- Claim C2 (amended): the Decompression Strategist fails (returns `none`)
on an empty payload — it does not short-circuit to success — and a tag-98
block with header `[204, 5]` and empty payload therefore decodes end-to-end
to the block-local decompression error marker, not to an empty-value
success. -/
theorem c2_empty_payload (ext : Externals) (uncompressed_size : Nat) :
    decompress_data ext [] uncompressed_size = none ∧
    process_blocks ext [⟨98, [204, 5], []⟩] =
      some (.ok [(ext.reser ⟨98, [204, 5], []⟩, decompressErrMarker)]) :=
  ⟨decompress_data_empty ext uncompressed_size, rfl⟩

/-- Counterexample for C2 as stated: with header `[204, 5]` and empty
payload, the strategist returns `none` (a failure, not a zero-length
success) and the block's result is the error marker object. -/
theorem c2_counterexample :
    decompress_data extDummy [] 5 = none ∧
    process_blocks extDummy [⟨98, [204, 5], []⟩] =
      some (.ok [([], decompressErrMarker)]) :=
  ⟨rfl, rfl⟩

/-- Claim C3: a batch whose blocks all carry tag 98 is processed to the end
with one result per block in order (block-local decompression or parse
failures never abort it, a failed block contributing the error marker),
while the first block with a different tag aborts the whole batch with an
error naming that tag, discarding all collected results. -/
theorem c3_tag_abort (ext : Externals) (blocks : List Block) :
    ((∀ b ∈ blocks, b.ext_type = 98) →
      ∃ rs, process_blocks ext blocks = some (.ok rs) ∧ rs.length = blocks.length ∧
        ∀ i, i < blocks.length →
          processBlock ext (blocks.getD i ⟨0, [], []⟩) = some (rs.getD i ([], .null))) ∧
    (∀ b : Block, ∀ u, get_uncompressed_size b.header_data = some u →
      decompress_data ext b.data u = none →
      processBlock ext b = some (ext.reser b, decompressErrMarker)) ∧
    ((∃ b ∈ blocks, b.ext_type ≠ 98) →
      ∃ e, process_blocks ext blocks = some (.error e)) ∧
    (∀ i, i < blocks.length → (blocks.getD i ⟨0, [], []⟩).ext_type ≠ 98 →
      (∀ j, j < i → (blocks.getD j ⟨0, [], []⟩).ext_type = 98) →
      process_blocks ext blocks = some (.error
        ("Unsupported extension type: " ++ toString (blocks.getD i ⟨0, [], []⟩).ext_type))) :=
  ⟨process_blocks_ok ext blocks,
   fun b u hu hd => processBlock_marker ext b u hu hd,
   process_blocks_any_bad ext blocks,
   fun i hi hbad hgood => process_blocks_abort ext blocks i hi hbad hgood⟩

/-- Witness for C3: a valid block followed by a tag-99 block aborts the batch
naming 99, while the valid block alone (whose decompression fails) is
processed to a one-element result. -/
theorem c3_witness :
    (∃ rs, process_blocks extDummy [⟨98, [204, 5], []⟩] = some (.ok rs) ∧ rs.length = 1) ∧
    (∃ e, process_blocks extDummy [⟨99, [204, 5], []⟩] = some (.error e)) ∧
    process_blocks extDummy [⟨98, [204, 5], []⟩, ⟨99, [204, 5], []⟩] =
      some (.error ("Unsupported extension type: " ++ toString (99 : Int))) := by
  refine ⟨?_, ?_, ?_⟩
  · obtain ⟨rs, hrs, hlen, _⟩ := (c3_tag_abort extDummy [⟨98, [204, 5], []⟩]).1
      (by intro b hb; simp at hb; rw [hb])
    exact ⟨rs, hrs, hlen⟩
  · exact (c3_tag_abort extDummy [⟨99, [204, 5], []⟩]).2.2.1
      ⟨⟨99, [204, 5], []⟩, by simp, by decide⟩
  · have h := (c3_tag_abort extDummy [⟨98, [204, 5], []⟩, ⟨99, [204, 5], []⟩]).2.2.2 1
      (by norm_num) (by decide)
      (by intro j hj; have hj0 : j = 0 := by omega
          rw [hj0]; rfl)
    exact h

/-- Claim C4 (amended): the Envelope Parser fails on fewer than two
descriptors and on a scan that finds no valid block, and a candidate header
without a usable `type` discriminator is skipped non-fatally by one
position; but a candidate header that exposes the discriminator while
lacking the nested `buffer` field aborts the parse with a hard error (the
claimed universal non-fatal skip does not hold). -/
theorem c4_parser_failure_modes (arr : List Json) :
    (arr.length < 2 → parse_input arr = .error ("Input JSON must contain at least 2 elements")) ∧
    (∀ (header data : Json) (rest : List Json) (i : Nat) (acc : List Block),
      (jsonGet header "type").bind as_u64 = none →
      parseGo (header :: data :: rest) i acc = parseGo (data :: rest) (i + 1) acc) ∧
    (∀ (header data : Json) (rest : List Json) (i : Nat) (acc : List Block) (t : Nat),
      (jsonGet header "type").bind as_u64 = some t →
      jsonGet header "buffer" = none →
      parseGo (header :: data :: rest) i acc =
        .error ("Missing buffer in block at index " ++ toString i)) ∧
    (2 ≤ arr.length →
      (∀ d ∈ arr, (jsonGet d "type").bind as_u64 = none) →
      parse_input arr = .error ("No valid LZ4 blocks found in input")) := by
  refine ⟨?_, ?_, ?_, ?_⟩
  · intro hl
    unfold parse_input
    rw [if_pos hl]
  · intro header data rest i acc hty
    exact parseGo_skip header data rest i acc hty
  · intro header data rest i acc t hty hbuf
    exact parseGo_missing_buffer header data rest i acc t hty hbuf
  · intro hl hall
    unfold parse_input
    rw [if_neg (by omega)]
    rw [parseGo_all_skipped arr hall 0 []]
    rfl

/-- Witness for C4: the short-input failure, the non-fatal skip, the fatal
missing-buffer error and the zero-blocks failure, each at a concrete
envelope. -/
theorem c4_witness :
    parse_input [Json.null] = .error ("Input JSON must contain at least 2 elements") ∧
    parseGo [Json.null, Json.null] 0 [] = parseGo [Json.null] 1 [] ∧
    parseGo [mkObj [("type", byteJson 98)], Json.null] 0 [] =
      .error ("Missing buffer in block at index " ++ toString (0 : Nat)) ∧
    parse_input [Json.null, Json.null] = .error ("No valid LZ4 blocks found in input") := by
  refine ⟨?_, ?_, ?_, ?_⟩
  · exact (c4_parser_failure_modes [Json.null]).1 (by norm_num)
  · exact (c4_parser_failure_modes [Json.null]).2.1 Json.null Json.null [] 0 [] rfl
  · exact (c4_parser_failure_modes [Json.null]).2.2.1 (mkObj [("type", byteJson 98)])
      Json.null [] 0 [] 98 rfl rfl
  · refine (c4_parser_failure_modes [Json.null, Json.null]).2.2.2 (by norm_num) ?_
    intro d hd
    fin_cases hd <;> rfl

/-- Counterexample for C4 as stated: a two-descriptor sequence whose header
exposes `type` but lacks `buffer` is not skipped non-fatally — the parser
aborts with a third kind of error, distinct from the two failure modes the
claim allows. -/
theorem c4_counterexample :
    parse_input [mkObj [("type", byteJson 98)], mkObj [("data", .arr [])]] =
      .error ("Missing buffer in block at index 0") ∧
    ("Missing buffer in block at index 0" ≠ "Input JSON must contain at least 2 elements") ∧
    ("Missing buffer in block at index 0" ≠ "No valid LZ4 blocks found in input") :=
  ⟨rfl, by decide, by decide⟩

/-- Claim C5 (amended): for a header whose first byte is none of 205, 206,
204, the decoder returns 0 when the header is shorter than two bytes and
`header length * 4` otherwise; in particular no little-endian interpretation
is attempted on this path (the claimed 2-byte/4-byte little-endian attempts
live inside the 204-prefixed long-header branch), and a length-1 header
yields 0, not 4. -/
theorem c5_unknown_leading_byte (header : List Nat) (b0 : Nat)
    (h0 : header[0]? = some b0) (h204 : b0 ≠ 204) (h205 : b0 ≠ 205) (h206 : b0 ≠ 206) :
    get_uncompressed_size header =
      some (if header.length < 2 then 0 else header.length * 4) := by
  unfold get_uncompressed_size
  by_cases hl : header.length < 2
  · rw [if_pos hl, if_pos hl]
  · rw [if_neg hl, if_neg hl, h0]
    dsimp only
    rw [if_neg (fun hc => h205 hc.1)]
    rw [if_neg (fun hc => h206 hc.1)]
    rw [if_neg (fun hc => h204 hc.2.1)]
    rw [if_neg h204, if_neg h205, if_neg h206]

/-- Witness for C5: a header starting with byte 7 of length 2 yields 8. -/
theorem c5_witness : get_uncompressed_size [7, 7] = some 8 := by
  have h := c5_unknown_leading_byte [7, 7] 7 rfl (by norm_num) (by norm_num) (by norm_num)
  simpa using h

/-- Counterexample for C5 as stated: the header `[1, 100, 0]` would satisfy
the claimed little-endian 2-byte path (value 100, inside the plausibility
bound) but the decoder returns the fallback `3 * 4 = 12`; and the length-1
header `[1]` yields 0, not the claimed 4. -/
theorem c5_counterexample :
    get_uncompressed_size [1, 100, 0] = some 12 ∧ (some 12 : Option Nat) ≠ some 100 ∧
    get_uncompressed_size [1] = some 0 ∧ (some 0 : Option Nat) ≠ some 4 :=
  ⟨rfl, by decide, rfl, by decide⟩

/-- Claim C6: for every reader behavior and every finite input, the
partial-recovery loop executes at most `input length + 1` iterations (each
iteration advances the offset by at least one), recovers at most 100 values,
and records them at strictly increasing input positions (input order). -/
theorem c6_partial_recovery_bounds (ext : Externals) (data : List Nat) :
    (ppAux ext data 0 []).2 ≤ data.length + 1 ∧
    (parse_partial_messagepack ext data).length ≤ 100 ∧
    ((ppAux ext data 0 []).1).Pairwise (fun a b => a.1 < b.1) := by
  refine ⟨?_, ?_, ?_⟩
  · have h := ppAux_steps ext data 0 []
    omega
  · unfold parse_partial_messagepack
    rw [List.length_map]
    exact ppAux_len ext data 0 [] (by norm_num)
  · exact ppAux_pairwise ext data 0 [] (by intro p hp; simp at hp) List.Pairwise.nil

/-- Claim C7 (amended): a JSON value from the image of `serde_json` parsing
whose integers are `i64`-representable (integers beyond that range are
converted lossily through `as_f64` and decode as floats, so they cannot
round-trip), encoded by the lib.rs encoder (MessagePack conversion,
compression, envelope with the `[204, size bytes]` header and tag 98) and
decoded by the pipeline, comes back unchanged — provided (i) the
shape-promotion heuristic does not match it, (ii) the MessagePack encoding
is not exactly 845261 bytes long (that length's header `[204, 12, 229, 205]`
collides with the hard-coded 3941 sample hint, so strategy 1's bound
`39410` under-budgets the real size), and (iii) ten times the encoded
length fits in an `i32` (otherwise the `as i32` cast wraps the bound).
`buffer` stands for the MessagePack encoding of the value and `compressed`
for its LZ4 compression; the hypotheses on the externals say only that the
reader inverts the encoder and that the bounded decompressor recovers the
compressed bytes at any bound that covers their actual length — the
documented behavior of `lz4::block::decompress` with an adequate capacity —
so the adequacy of the computed bound is proved, not assumed: the proof
shows the size hint recovers the exact encoded length and that strategy 1
already succeeds. Without the provisos the claim is false (see the
counterexample). -/
theorem c7_roundtrip (ext : Externals) (fOf : Nat → Nat) (v : Json) (mp : MP)
    (buffer compressed : List Nat)
    (hmp : mp = convert_json_to_msgpack fOf v)
    (hgood : goodJson v = true)
    (hnp : promotionApplies v = false)
    (hbne : buffer.isEmpty = false)
    (hnospoof : buffer.length ≠ 845261)
    (hi32 : buffer.length * 10 < 2 ^ 31)
    (hcne : compressed.isEmpty = false)
    (hcb : ∀ b ∈ compressed, b < 2 ^ 8)
    (hread : ∃ n, ext.readv buffer = some (mp, n))
    (hdB : ∀ bound : Int, (buffer.length : Int) ≤ bound →
      ext.dB compressed bound = some buffer) :
    analyze_is_lz4_block_array (create_output_json buffer compressed) = true ∧
    parse_input (create_output_json buffer compressed) =
      .ok [⟨98, size_header buffer.length, compressed⟩] ∧
    process_blocks ext [⟨98, size_header buffer.length, compressed⟩] =
      some (.ok [(ext.reser ⟨98, size_header buffer.length, compressed⟩, v)]) := by
  refine ⟨rfl, parse_input_envelope buffer compressed hcb, ?_⟩
  have hb1 : 1 ≤ buffer.length := by
    cases buffer with
    | nil => simp at hbne
    | cons x xs => simp
  have hu : get_uncompressed_size (size_header buffer.length) = some buffer.length :=
    gus_size_header buffer.length hb1 hnospoof (by omega)
  have hbound : ext.dB compressed (toI32 (buffer.length * 10)) = some buffer := by
    apply hdB
    rw [toI32_small _ hi32]
    exact_mod_cast Nat.le_mul_of_pos_right buffer.length (by omega)
  have hatt : decompress_data ext compressed buffer.length = some (buffer, 1) :=
    decompress_data_first ext compressed buffer buffer.length hcne (by omega) hbound
  obtain ⟨n, hn⟩ := hread
  have hconv : convert_value_to_json ext.f32c mp = v := by
    rw [hmp]
    exact conv_rt ext.f32c fOf v hgood
  have hpdd : process_decompressed_data ext buffer 1 = .ok v :=
    pdd_no_promotion ext buffer 1 mp n v hbne hn hconv hnp
  exact process_blocks_single ext _ _ rfl
    (processBlock_ok_of ext _ buffer.length buffer 1 v hu hatt hpdd)

/-- Witness for C7: the string value "hi" with a one-byte encoding `[7]` and
one-byte compression `[8]` survives the full decode pipeline. -/
theorem c7_witness :
    process_blocks extRoundTrip [⟨98, size_header 1, [8]⟩] =
      some (.ok [(extRoundTrip.reser ⟨98, size_header 1, [8]⟩, .str "hi")]) := by
  have h := c7_roundtrip extRoundTrip (fun _ => 0) (.str "hi") (.str "hi") [7] [8]
    rfl rfl rfl rfl (by norm_num) (by norm_num) rfl
    (by intro b hb; fin_cases hb <;> norm_num)
    ⟨1, rfl⟩ (fun bound hbound => rfl)
  exact h.2.2

/-- Counterexample for C7 as stated: (a) the good value `[1, 2, 3, 4, 5]`
(an array of five integers) does not round-trip — the decoded result is the
promoted object with the single key `status`, because the shape-promotion
heuristic rewrites any five-element array with a number in position 2;
(b) a `u64` integer beyond the `i64` range is converted through the lossy
`as_f64` path and decodes as a float number, never the original integer
(whatever the float bits are); (c) for an 845261-byte encoding the emitted
header is exactly the hard-coded sample `[204, 12, 229, 205]`, the size
hint becomes 3941 and strategy 1's `i32` bound 39410 falls short of the
real length (so the real bounded LZ4 decompression fails there), and for a
214748365-byte encoding the `as i32` cast makes the bound negative. -/
theorem c7_counterexample :
    goodJson (.arr [.num (.int 1), .num (.int 2), .num (.int 3), .num (.int 4),
      .num (.int 5)]) = true ∧
    parse_input (create_output_json [0] [0]) = .ok [⟨98, [204, 1], [0]⟩] ∧
    extNums.readv [0] = some (convert_json_to_msgpack (fun _ => 0)
      (.arr [.num (.int 1), .num (.int 2), .num (.int 3), .num (.int 4), .num (.int 5)]), 1) ∧
    (∀ bound : Int, extNums.dB [0] bound = some [0]) ∧
    process_blocks extNums [⟨98, [204, 1], [0]⟩] =
      some (.ok [([], .obj [("status", .num (.int 3))])]) ∧
    Json.obj [("status", .num (.int 3))] ≠
      .arr [.num (.int 1), .num (.int 2), .num (.int 3), .num (.int 4), .num (.int 5)] ∧
    convert_value_to_json (fun _ => 0)
      (convert_json_to_msgpack (fun _ => 0) (.num (.int (2 ^ 63)))) = .num (.float 0) ∧
    Json.num (.float 0) ≠ .num (.int (2 ^ 63)) ∧
    size_header 845261 = [204, 12, 229, 205] ∧
    get_uncompressed_size [204, 12, 229, 205] = some 3941 ∧
    toI32 (3941 * 10) = 39410 ∧ 39410 < 845261 ∧
    toI32 (214748365 * 10) < 0 := by
  refine ⟨rfl, rfl, rfl, fun _ => rfl, rfl, fun h => Json.noConfusion h, ?_, ?_, ?_, rfl,
    by decide, by norm_num, by decide⟩
  · rfl
  · simp
  · rfl

/-- Claim C8: the Size-Hint Decoder is total — for every non-empty header it
returns a size, every byte access being guarded by a length check (so no
panic branch of the embedding is reachable). -/
theorem c8_size_hint_total (header : List Nat) (hne : header ≠ []) :
    ∃ n, get_uncompressed_size header = some n :=
  get_uncompressed_size_total header

/-- Witness for C8 at the one-byte header `[204]`. -/
theorem c8_witness : ∃ n, get_uncompressed_size [204] = some n :=
  c8_size_hint_total [204] (by simp)

/-- Claim C9 (amended): the Binary Profiler on empty input returns a summary
with every count zero and an empty top-bytes list; the two top-level
percentage fields are computed by the float division with the zero total as
divisor, rendering as NaN (non-trapping) — the division by zero does occur,
it just cannot fail. -/
theorem c9_profiler_empty (ext : Externals) :
    jsonGet (summarize_binary_data ext []) "total_bytes" = some (.num (.int 0)) ∧
    jsonGet (summarize_binary_data ext []) "zero_bytes" = some (.num (.int 0)) ∧
    jsonGet (summarize_binary_data ext []) "ascii_text_bytes" = some (.num (.int 0)) ∧
    jsonGet (summarize_binary_data ext []) "control_bytes" = some (.num (.int 0)) ∧
    jsonGet (summarize_binary_data ext []) "high_bytes" = some (.num (.int 0)) ∧
    jsonGet (summarize_binary_data ext []) "most_common_bytes" = some (.arr []) ∧
    jsonGet (summarize_binary_data ext []) "zero_percentage" =
      some (.str (pctString ext 0 0)) ∧
    jsonGet (summarize_binary_data ext []) "text_percentage" =
      some (.str (pctString ext 0 0)) ∧
    pctString ext 0 0 = "NaN%" :=
  ⟨rfl, rfl, rfl, rfl, rfl, rfl, rfl, rfl, rfl⟩

/-- Counterexample for C9 as stated: on empty input the two percentage
fields are computed by dividing by the zero byte total — the profiler emits
the NaN rendering of `0.0 / 0.0`, so a division by zero does occur in a
computed field. -/
theorem c9_counterexample :
    jsonGet (summarize_binary_data extDummy []) "zero_percentage" = some (.str "NaN%") ∧
    jsonGet (summarize_binary_data extDummy []) "text_percentage" = some (.str "NaN%") :=
  ⟨rfl, rfl⟩

/-- Claim C10: the envelope parser truncates the integer tag `as i8`, and the
orchestrator compares the truncated value with 98, so a descriptor whose tag
is congruent to 98 modulo 256 (for example 354) parses to a supported block
and is processed without the batch-wide abort. -/
theorem c10_tag_truncation (ext : Externals) (t : Nat) (hb pb : List Nat)
    (ht64 : t < 2 ^ 64) (hmod : t % 2 ^ 8 = 98)
    (hhb : ∀ b ∈ hb, b < 2 ^ 64) (hpb : ∀ b ∈ pb, b < 2 ^ 64) :
    parse_input [mkObj [("type", byteJson t), ("buffer", mkObj [("data", bytesToJson hb)])],
        mkObj [("data", bytesToJson pb)]] =
      .ok [⟨98, hb.map (fun b => b % 2 ^ 8), pb.map (fun b => b % 2 ^ 8)⟩] ∧
    ∃ rs, process_blocks ext
      [⟨98, hb.map (fun b => b % 2 ^ 8), pb.map (fun b => b % 2 ^ 8)⟩] = some (.ok rs) := by
  have hi8 : toI8 t = 98 := by
    unfold toI8
    rw [hmod]
    norm_num
  constructor
  · have h := parse_input_pair
      (mkObj [("type", byteJson t), ("buffer", mkObj [("data", bytesToJson hb)])])
      (mkObj [("data", bytesToJson pb)])
      (mkObj [("data", bytesToJson hb)]) (bytesToJson pb)
      t (hb.map (fun b => b % 2 ^ 8)) (pb.map (fun b => b % 2 ^ 8))
      rfl ht64 rfl
      (by
        rw [show jsonIndex (mkObj [("data", bytesToJson hb)]) "data" = bytesToJson hb from rfl]
        exact extract_byte_array_toJson hb hhb)
      rfl (extract_byte_array_toJson pb hpb)
    rw [hi8] at h
    exact h
  · obtain ⟨rs, hrs, _, _⟩ := process_blocks_ok ext
      [⟨98, hb.map (fun b => b % 2 ^ 8), pb.map (fun b => b % 2 ^ 8)⟩]
      (by intro b hbm; simp at hbm; rw [hbm])
    exact ⟨rs, hrs⟩

/-- Witness for C10: tag 354 (which is 98 modulo 256) parses to a supported
block that is processed without the batch abort. -/
theorem c10_witness :
    parse_input [mkObj [("type", byteJson 354), ("buffer", mkObj [("data", bytesToJson [204, 5])])],
        mkObj [("data", bytesToJson [1])]] = .ok [⟨98, [204, 5], [1]⟩] ∧
    ∃ rs, process_blocks extDummy [⟨98, [204, 5], [1]⟩] = some (.ok rs) := by
  have h := c10_tag_truncation extDummy 354 [204, 5] [1] (by norm_num) (by norm_num)
    (by intro b hbm; fin_cases hbm <;> norm_num)
    (by intro b hbm; fin_cases hbm <;> norm_num)
  exact h
